import Mathlib

/-!
Verification of the regex text-processing tool (`txt.py`).

Text is modelled as `List Char` (Python strings are sequences of Unicode
code points; slicing `text[a:b]` becomes `pySlice`).  The Python `re`
engine is not part of the repository, so compiled matchers are modelled
as oracles producing leftmost match spans; the scanning loop of
`finditer` and the splicing performed by `sub` are modelled from the
specification.  Everything that is code of `txt.py` itself
(`explain_regex`, `live_highlight`, `replace_editor_content`,
`load_patterns_file`, `compile_pattern` flag handling, the escaping
pipeline) is translated directly from the source.
-/

/-- Python slice `l[a:b]` (for `a ≤ b`; both ends clamp to the list length). -/
def pySlice (l : List Char) (a b : Nat) : List Char :=
  (l.drop a).take (b - a)

/-! ## `html.escape` and its inverse

`live_highlight` passes every piece of text through `html.escape`
(quote mode), which performs the sequential replacements
`& → &amp;`, `< → &lt;`, `> → &gt;`, `" → &quot;`, `' → &#x27;`.
Because the ampersands introduced by the first replacement are never
revisited, this equals the character-wise map below. -/

def ampEnt : List Char := ['&', 'a', 'm', 'p', ';']
def ltEnt : List Char := ['&', 'l', 't', ';']
def gtEnt : List Char := ['&', 'g', 't', ';']
def quotEnt : List Char := ['&', 'q', 'u', 'o', 't', ';']
def aposEnt : List Char := ['&', '#', 'x', '2', '7', ';']

/-- The per-character action of `html.escape(s, quote=True)`. -/
def htmlEscapeChar (c : Char) : List Char :=
  if c = '&' then ampEnt
  else if c = '<' then ltEnt
  else if c = '>' then gtEnt
  else if c = '\x22' then quotEnt
  else if c = '\x27' then aposEnt
  else [c]

/-- `html.escape(s, quote=True)` over a whole string. -/
def htmlEscape : List Char → List Char
  | [] => []
  | c :: rest => htmlEscapeChar c ++ htmlEscape rest

/-- Modelled from the spec: the inverse of the escaping above — decode the
five entities `html.escape` produces, leave every other character alone.
(The stdlib decoder `html.unescape` is not part of the repository.) -/
def htmlUnescape : List Char → List Char
  | [] => []
  | c :: rest =>
    if c = '&' then
      if rest.take 4 = ['a', 'm', 'p', ';'] then '&' :: htmlUnescape (rest.drop 4)
      else if rest.take 3 = ['l', 't', ';'] then '<' :: htmlUnescape (rest.drop 3)
      else if rest.take 3 = ['g', 't', ';'] then '>' :: htmlUnescape (rest.drop 3)
      else if rest.take 5 = ['q', 'u', 'o', 't', ';'] then '\x22' :: htmlUnescape (rest.drop 5)
      else if rest.take 5 = ['#', 'x', '2', '7', ';'] then '\x27' :: htmlUnescape (rest.drop 5)
      else '&' :: htmlUnescape rest
    else c :: htmlUnescape rest
  termination_by l => l.length
  decreasing_by
  all_goals simp [List.length_drop]
  all_goals omega

theorem htmlUnescape_cons_ne (c : Char) (l : List Char) (h : c ≠ '&') :
    htmlUnescape (c :: l) = c :: htmlUnescape l := by
  rw [htmlUnescape]
  simp [h]

theorem htmlUnescape_htmlEscape (l : List Char) :
    htmlUnescape (htmlEscape l) = l := by
  induction l with
  | nil => rw [show htmlEscape [] = [] from rfl, htmlUnescape]
  | cons c rest ih =>
    show htmlUnescape (htmlEscapeChar c ++ htmlEscape rest) = c :: rest
    unfold htmlEscapeChar
    by_cases h1 : c = '&'
    · subst h1
      rw [if_pos rfl, ampEnt, List.cons_append, htmlUnescape]
      simp [ih]
    · by_cases h2 : c = '<'
      · subst h2
        rw [if_neg h1, if_pos rfl, ltEnt, List.cons_append, htmlUnescape]
        simp [ih]
      · by_cases h3 : c = '>'
        · subst h3
          rw [if_neg h1, if_neg h2, if_pos rfl, gtEnt, List.cons_append, htmlUnescape]
          simp [ih]
        · by_cases h4 : c = '\x22'
          · subst h4
            rw [if_neg h1, if_neg h2, if_neg h3, if_pos rfl, quotEnt, List.cons_append,
              htmlUnescape]
            simp [ih]
          · by_cases h5 : c = '\x27'
            · subst h5
              rw [if_neg h1, if_neg h2, if_neg h3, if_neg h4, if_pos rfl, aposEnt,
                List.cons_append, htmlUnescape]
              simp [ih]
            · simp only [if_neg h1, if_neg h2, if_neg h3, if_neg h4, if_neg h5,
                List.singleton_append]
              rw [htmlUnescape_cons_ne c _ h1, ih]

/-! ## Match spans and the `finditer` scan

The compiled matcher (`re.compile(...)` in `compile_pattern`) is stdlib
code, so it is modelled as an oracle: `find pos` is the leftmost match
span `(start, end)` beginning at offset `pos` or later, `none` when no
further match exists. -/

/-- A compiled matcher applied to a text: leftmost match at or after a position. -/
def Matcher : Type := List Char → Nat → Option (Nat × Nat)

/-- Modelled from the spec: the non-overlapping left-to-right scan of
`re.finditer` — resume searching at the end of the previous match, one
position later when the previous match was empty.  (`fuel` bounds the
number of iterations; `text.length + 1` always suffices for a valid
matcher.) -/
def finditerSpans (find : Nat → Option (Nat × Nat)) : Nat → Nat → List (Nat × Nat)
  | 0, _ => []
  | fuel + 1, pos =>
    match find pos with
    | none => []
    | some (s, e) => (s, e) :: finditerSpans find fuel (if e = s then e + 1 else e)

/-- The oracle really behaves like a leftmost-match search: matches start
at or after the requested position and have non-negative width. -/
def FindValid (find : Nat → Option (Nat × Nat)) : Prop :=
  ∀ p s e, find p = some (s, e) → p ≤ s ∧ s ≤ e

/-- Span lists that start at or after `p`, have `start ≤ end`, and chain
`end ≤ next start` — exactly the shape `live_highlight` walks. -/
def spansOk : Nat → List (Nat × Nat) → Bool
  | _, [] => true
  | p, (s, e) :: ms => decide (p ≤ s) && decide (s ≤ e) && spansOk e ms

theorem spansOk_mono {p q : Nat} {ms : List (Nat × Nat)} (h : spansOk p ms = true)
    (hqp : q ≤ p) : spansOk q ms = true := by
  cases ms with
  | nil => rfl
  | cons m rest =>
    obtain ⟨s, e⟩ := m
    simp only [spansOk, Bool.and_eq_true, decide_eq_true_eq] at h ⊢
    exact ⟨⟨le_trans hqp h.1.1, h.1.2⟩, h.2⟩

theorem spansOk_finditerSpans (find : Nat → Option (Nat × Nat)) (hv : FindValid find) :
    ∀ fuel pos, spansOk pos (finditerSpans find fuel pos) = true := by
  intro fuel
  induction fuel with
  | zero => intro pos; rfl
  | succ n ih =>
    intro pos
    rw [finditerSpans]
    cases hf : find pos with
    | none => rfl
    | some m =>
      obtain ⟨s, e⟩ := m
      obtain ⟨hps, hse⟩ := hv pos s e hf
      simp only [spansOk, Bool.and_eq_true, decide_eq_true_eq]
      refine ⟨⟨hps, hse⟩, ?_⟩
      refine spansOk_mono (ih _) ?_
      split <;> omega

theorem spansOk_chain_end_start {ms : List (Nat × Nat)} :
    ∀ p, spansOk p ms = true → List.Chain' (fun a b => a.2 ≤ b.1) ms := by
  induction ms with
  | nil => intro p _; exact List.chain'_nil
  | cons m rest ih =>
    intro p h
    obtain ⟨s, e⟩ := m
    simp only [spansOk, Bool.and_eq_true, decide_eq_true_eq] at h
    refine List.chain'_cons'.mpr ⟨?_, ih e h.2⟩
    intro y hy
    cases rest with
    | nil => simp at hy
    | cons m' rest' =>
      obtain ⟨s', e'⟩ := m'
      simp only [List.head?_cons, Option.mem_def, Option.some.injEq] at hy
      subst hy
      simp only [spansOk, Bool.and_eq_true, decide_eq_true_eq] at h
      exact h.2.1.1

theorem spansOk_chain_start_start {ms : List (Nat × Nat)} :
    ∀ p, spansOk p ms = true → List.Chain' (fun a b => a.1 ≤ b.1) ms := by
  induction ms with
  | nil => intro p _; exact List.chain'_nil
  | cons m rest ih =>
    intro p h
    obtain ⟨s, e⟩ := m
    simp only [spansOk, Bool.and_eq_true, decide_eq_true_eq] at h
    refine List.chain'_cons'.mpr ⟨?_, ih e h.2⟩
    intro y hy
    cases rest with
    | nil => simp at hy
    | cons m' rest' =>
      obtain ⟨s', e'⟩ := m'
      simp only [List.head?_cons, Option.mem_def, Option.some.injEq] at hy
      subst hy
      simp only [spansOk, Bool.and_eq_true, decide_eq_true_eq] at h
      exact le_trans h.1.2 h.2.1.1

/-! ## The markup built by `live_highlight`

The loop body of `live_highlight` appends, for each match `(s, e)`:
the escaped text strictly between the previous match end and `s`, then
`<mark style="background-color:COLOR;">`, the escaped match text, and
`</mark>`; after the loop it appends the escaped remainder.  We keep the
appended pieces as a list of segments (escaped text / wrapper markers);
concatenating their rendering gives the `output_html` string. -/

inductive HSeg : Type
  | esc : List Char → HSeg
  | mopen : List Char → HSeg
  | mclose : HSeg
deriving DecidableEq

def markOpenPre : List Char := "<mark style=\x22background-color:".toList
def markOpenPost : List Char := ";\x22>".toList
def markCloseStr : List Char := "</mark>".toList

/-- How each segment appears in the `output_html` string. -/
def segRender : HSeg → List Char
  | .esc s => s
  | .mopen color => markOpenPre ++ color ++ markOpenPost
  | .mclose => markCloseStr

/-- The cursor walk of `live_highlight` (lines 227-233 of `txt.py`),
starting from cursor `last_end` over the remaining match spans. -/
def highlightGo (text color : List Char) : Nat → List (Nat × Nat) → List HSeg
  | last_end, [] => [.esc (htmlEscape (text.drop last_end))]
  | last_end, (s, e) :: ms =>
    .esc (htmlEscape (pySlice text last_end s)) :: .mopen color ::
      .esc (htmlEscape (pySlice text s e)) :: .mclose :: highlightGo text color e ms

def divOpen : List Char :=
  "<div style=\x22white-space:pre-wrap; font-family: monospace;\x22>".toList
def divClose : List Char := "</div>".toList

/-- `output_html` of `live_highlight` when at least one match was found. -/
def highlightHTML (text color : List Char) (spans : List (Nat × Nat)) : List Char :=
  divOpen ++ ((highlightGo text color 0 spans).map segRender).flatten ++ divClose

/-- Removing the highlight-wrapper markers and unescaping the escaped
segments, as in the round-trip property of the spec. -/
def stripSeg : HSeg → List Char
  | .esc s => htmlUnescape s
  | .mopen _ => []
  | .mclose => []

def stripSegs (segs : List HSeg) : List Char := (segs.map stripSeg).flatten

theorem pySlice_append_drop (l : List Char) {a b : Nat} (hab : a ≤ b) :
    pySlice l a b ++ l.drop b = l.drop a := by
  have hb : l.drop b = (l.drop a).drop (b - a) := by
    rw [List.drop_drop]
    congr 1
    omega
  rw [pySlice, hb, List.take_append_drop]

theorem stripSegs_highlightGo (text color : List Char) :
    ∀ (spans : List (Nat × Nat)) (p : Nat), spansOk p spans = true →
      stripSegs (highlightGo text color p spans) = text.drop p := by
  intro spans
  induction spans with
  | nil =>
    intro p _
    simp [highlightGo, stripSegs, stripSeg, htmlUnescape_htmlEscape]
  | cons m rest ih =>
    intro p h
    obtain ⟨s, e⟩ := m
    simp only [spansOk, Bool.and_eq_true, decide_eq_true_eq] at h
    obtain ⟨⟨hps, hse⟩, hrest⟩ := h
    simp only [highlightGo, stripSegs, List.map_cons, List.flatten_cons, stripSeg,
      htmlUnescape_htmlEscape, List.nil_append]
    have ihe := ih e hrest
    simp only [stripSegs] at ihe
    rw [ihe, pySlice_append_drop text hse, pySlice_append_drop text hps]

/-! ## Session state and `live_highlight`

The Streamlit `st.session_state` fields the verified handlers touch. -/

structure Session : Type where
  pattern_input : List Char
  case_sensitive_input : Bool
  multiline_input : Bool
  dotall_input : Bool
  editor_content : List Char
  color_input : List Char
  replace_with_input : List Char
  highlight_output : List Char
  match_count : Nat
  last_editor_content : Option (List Char)
deriving DecidableEq

/-- The flag set `compile_pattern` hands to `re.compile`:
`IGNORECASE` unless case-sensitive, plus optional `MULTILINE` and `DOTALL`. -/
structure ReFlags : Type where
  ignorecase : Bool
  multiline : Bool
  dotall : Bool
deriving DecidableEq

/-- Flag computation of `compile_pattern` (lines 22-28 of `txt.py`). -/
def compile_pattern_flags (case_sensitive multiline dotall : Bool) : ReFlags :=
  { ignorecase := !case_sensitive, multiline := multiline, dotall := dotall }

def sessionFlags (s : Session) : ReFlags :=
  compile_pattern_flags s.case_sensitive_input s.multiline_input s.dotall_input

/-- `re.compile` itself is stdlib: an oracle that either fails with the
`re.error` message or yields a compiled matcher. -/
def CompileFn : Type := List Char → ReFlags → Except (List Char) Matcher

def noPatternHTML : List Char :=
  "<p style=\x27color:grey; font-family:monospace;\x27>Enter a pattern to see live highlighting.</p>".toList

def noMatchesHTML : List Char :=
  "<p style=\x27color:grey; font-family:monospace;\x27>No matches found.</p>".toList

def invalidRegexHTML (e : List Char) : List Char :=
  "<p style=\x22color:red; font-family: monospace;\x22>Invalid Regex: ".toList ++ e ++ "</p>".toList

/-- The match spans `live_highlight` walks: `list(cp.finditer(text_content))`. -/
def matcherSpans (cp : Matcher) (text : List Char) : List (Nat × Nat) :=
  finditerSpans (cp text) (text.length + 1) 0

/-- `live_highlight` (lines 203-240 of `txt.py`), with the stdlib
`re.compile` supplied as an oracle. -/
def live_highlight (compile : CompileFn) (s : Session) : Session :=
  if s.pattern_input = [] ∨ s.editor_content = [] then
    { s with highlight_output := noPatternHTML, match_count := 0 }
  else
    match compile s.pattern_input (sessionFlags s) with
    | .error e =>
      { s with highlight_output := invalidRegexHTML e, match_count := 0 }
    | .ok cp =>
      let ms := matcherSpans cp s.editor_content
      let output_html :=
        if ms = [] then noMatchesHTML
        else highlightHTML s.editor_content s.color_input ms
      { s with highlight_output := output_html, match_count := ms.length }

/-! ## Substitution and `replace_editor_content` -/

/-- Modelled from the spec: `cp.sub(template, text)` for a template with
no back-references — every non-overlapping match span is replaced by the
template, the gaps between the spans are kept. -/
def spliceSpans (text template : List Char) : Nat → List (Nat × Nat) → List Char
  | last_end, [] => text.drop last_end
  | last_end, (s, e) :: ms =>
    pySlice text last_end s ++ template ++ spliceSpans text template e ms

/-- Modelled from the spec: `cp.sub(template, text)`. -/
def reSub (cp : Matcher) (template text : List Char) : List Char :=
  spliceSpans text template 0 (matcherSpans cp text)

/-- `replace_editor_content` (lines 277-302 of `txt.py`): guard on empty
editor and empty pattern, compile (a `re.error` is caught and only
reported), snapshot the editor into the depth-1 undo slot, substitute,
and re-run the highlighter. -/
def replace_editor_content (compile : CompileFn) (s : Session) : Session :=
  if s.editor_content = [] then s
  else if s.pattern_input = [] then s
  else
    match compile s.pattern_input (sessionFlags s) with
    | .error _ => s
    | .ok cp =>
      let original := s.editor_content
      let s1 := { s with last_editor_content := some original }
      let replaced := reSub cp s.replace_with_input original
      live_highlight compile { s1 with editor_content := replaced }

/-! ## The pattern library loader -/

/-- The JSON values `json.load` can produce. -/
inductive Json : Type
  | null : Json
  | bool : Bool → Json
  | num : Int → Json
  | str : List Char → Json
  | arr : List Json → Json
  | obj : List (List Char × Json) → Json

def Json.isArr : Json → Bool
  | .arr _ => true
  | _ => false

/-- What `open(PATTERNS_FILE, "r", encoding="utf-8")` followed by
`json.load(f)` can do: the file may be absent (`os.path.exists` false),
opening or reading may raise an `IOError`, decoding the bytes may raise
a `UnicodeDecodeError` (a `ValueError` that is not a
`json.JSONDecodeError`) when the file is not valid UTF-8, parsing the
decoded text may raise a `json.JSONDecodeError`, or a value is parsed. -/
inductive PatternsFileRead : Type
  | absent : PatternsFileRead
  | ioError : List Char → PatternsFileRead
  | unicodeDecodeError : List Char → PatternsFileRead
  | jsonDecodeError : List Char → PatternsFileRead
  | parsed : Json → PatternsFileRead

/-- `load_patterns_file` (lines 138-146 of `txt.py`): absent file → `[]`;
`except (json.JSONDecodeError, IOError)` → `[]`; a parsed value is kept
only when it is a list.  A `UnicodeDecodeError` raised inside
`json.load` matches neither handled exception class, so it escapes the
function: that uncaught path is the `Except.error` result. -/
def load_patterns_file (file : PatternsFileRead) : Except (List Char) (List Json) :=
  match file with
  | .absent => .ok []
  | .ioError _ => .ok []
  | .jsonDecodeError _ => .ok []
  | .unicodeDecodeError msg => .error msg
  | .parsed data => .ok (match data with
    | .arr l => l
    | _ => [])

/-! ## The pattern explainer `explain_regex`

Each iteration of the `while i < len(pattern)` loop appends exactly one
description and advances the cursor; `explainStep` is that loop body
(given the current character and the rest of the pattern) and
`explainGo` the loop.  Description strings are those of `txt.py`
verbatim. -/

def anyCharDesc : String :=
  "- **Any Character** (`.`): Matches any single character except a newline (unless DOTALL flag is used)."
def startAnchorDesc : String :=
  "- **Start of String/Line** (`^`): Asserts the position at the start of the string (or the start of a line in MULTILINE mode)."
def endAnchorDesc : String :=
  "- **End of String/Line** (`$`): Asserts the position at the end of the string (or the end of a line in MULTILINE mode)."

/-- The two-character escape classes of `token_map`, keyed by the
character following the backslash. -/
def escapeDesc (c : Char) : Option String :=
  if c = 'd' then some "- **Digit** (`\\d`): Matches any digit from 0 to 9."
  else if c = 'D' then some "- **Not a Digit** (`\\D`): Matches any character that is not a digit."
  else if c = 'w' then some "- **Word Character** (`\\w`): Matches any letter (a-z, A-Z), digit (0-9), or underscore (_)."
  else if c = 'W' then some "- **Not a Word Character** (`\\W`): Matches any character that is not a letter, digit, or underscore."
  else if c = 's' then some "- **Whitespace** (`\\s`): Matches any whitespace character (like space, tab, newline)."
  else if c = 'S' then some "- **Not Whitespace** (`\\S`): Matches any character that is not whitespace."
  else if c = 'b' then some "- **Word Boundary** (`\\b`): Asserts a position at a word boundary (e.g., between a letter and a space)."
  else if c = 'B' then some "- **Not a Word Boundary** (`\\B`): Asserts a position that is not a word boundary."
  else none

def starDesc : String :=
  "- **Zero or More** (`*`): The preceding element can occur 0 or more times."
def plusDesc : String :=
  "- **One or More** (`+`): The preceding element must occur 1 or more times."
def questionDesc : String :=
  "- **Zero or One** (`?`): The preceding element can occur 0 or 1 time. It also makes a quantifier \x27non-greedy\x27."
def capturingGroupDesc : String :=
  "- **Capturing Group** (`(`...`)`): Groups multiple tokens together and creates a capture group to extract the matched substring."
def nonCapturingGroupDesc : String :=
  "- **Non-Capturing Group** (`(?:`...`)`): Groups tokens together without creating a capture group."
def lookaroundDesc : String :=
  "- **Lookaround/Conditional** (`(?`...`)`): A special group that asserts a condition (e.g., lookahead, lookbehind) without consuming characters."
def endGroupDesc : String :=
  "- **End Group** (`)`): Closes the current group."
def alternationDesc : String :=
  "- **Alternation / OR** (`|`): Acts like a boolean OR, matching the expression before or after it."
def charSetDesc : String :=
  "- **Character Set** (`[`...`]`) : Matches any single character from the set."
def negCharSetDesc : String :=
  "- **Negated Character Set** (`[^`...`]`) : Matches any single character *not* in the set."
def endCharSetDesc : String :=
  "- **End Character Set** (`]`): Closes the character set."
def literalCharDesc (c : Char) : String :=
  "- **Literal Character** (`" ++ c.toString ++ "`): Matches the character \x27" ++ c.toString ++ "\x27 literally."
def escapedLiteralDesc (c : Char) : String :=
  "- **Literal Character** (`\\" ++ c.toString ++ "`): Matches the character \x27" ++ c.toString ++ "\x27 literally."
def emptyPatternDesc : String :=
  "- This pattern appears to be empty or contains no standard regex tokens to explain."

/-- The brace-quantifier recognizer `re.match(r'\x7b(\d+)(,)?(\d+)?\x7d', pattern[i:])`
(digits modelled as ASCII `0`-`9`): returns the whole matched token
`group(0)`, the first digit group, whether the comma matched, and the
optional second digit group. -/
def parseBraceQuant (l : List Char) : Option (List Char × List Char × Bool × Option (List Char)) :=
  match l with
  | '\x7b' :: rest =>
    let d1 := rest.takeWhile Char.isDigit
    let r1 := rest.dropWhile Char.isDigit
    if d1.isEmpty then none
    else
      match r1 with
      | ',' :: r2 =>
        let d3 := r2.takeWhile Char.isDigit
        let r3 := r2.dropWhile Char.isDigit
        match r3 with
        | '\x7d' :: _ =>
          some ('\x7b' :: (d1 ++ ',' :: (d3 ++ ['\x7d'])), d1, true,
            if d3.isEmpty then none else some d3)
        | _ => none
      | '\x7d' :: _ => some ('\x7b' :: (d1 ++ ['\x7d']), d1, false, none)
      | _ => none
  | _ => none

/-- The natural-language bound: `exactly m` / `at least m` / `between m and n`. -/
def braceBody (g1 : List Char) (hasComma : Bool) (g3 : Option (List Char)) : String :=
  match hasComma, g3 with
  | false, none => "exactly " ++ g1.asString ++ " times"
  | true, none => "at least " ++ g1.asString ++ " times"
  | _, some g3v => "between " ++ g1.asString ++ " and " ++ g3v.asString ++ " times"

def braceQuantDesc (tok : List Char) (body : String) : String :=
  "- **Quantifier** (`" ++ tok.asString ++ "`): The preceding element must occur " ++ body ++ "."

/-- One iteration of the scan loop of `explain_regex` (lines 48-130 of
`txt.py`): the description appended and the number of characters the
cursor advances. -/
def explainStep (c : Char) (rest : List Char) : String × Nat :=
  if c = '\\' then
    match rest with
    | [] => (literalCharDesc '\\', 1)
    | c2 :: _ =>
      match escapeDesc c2 with
      | some d => (d, 2)
      | none => (escapedLiteralDesc c2, 2)
  else if c = '.' then (anyCharDesc, 1)
  else if c = '^' then (startAnchorDesc, 1)
  else if c = '$' then (endAnchorDesc, 1)
  else if c = '*' then (starDesc, 1)
  else if c = '+' then (plusDesc, 1)
  else if c = '?' then (questionDesc, 1)
  else if c = '\x7b' then
    match parseBraceQuant (c :: rest) with
    | some (tok, g1, hasComma, g3) =>
      (braceQuantDesc tok (braceBody g1 hasComma g3), tok.length)
    | none => (literalCharDesc c, 1)
  else if c = '(' then
    if rest.take 2 = ['?', ':'] then (nonCapturingGroupDesc, 3)
    else if rest.take 1 = ['?'] then (lookaroundDesc, 1)
    else (capturingGroupDesc, 1)
  else if c = ')' then (endGroupDesc, 1)
  else if c = '|' then (alternationDesc, 1)
  else if c = '[' then
    if rest.take 1 = ['^'] then (negCharSetDesc, 2)
    else (charSetDesc, 1)
  else if c = ']' then (endCharSetDesc, 1)
  else (literalCharDesc c, 1)

/-- The scan loop: consume `(explainStep c rest).2` characters per
iteration (at least one, so the remaining pattern shrinks). -/
def explainGo : List Char → List String
  | [] => []
  | c :: rest =>
    let st := explainStep c rest
    st.1 :: explainGo (rest.drop (st.2 - 1))
  termination_by l => l.length
  decreasing_by
  simp only [List.length_cons, List.length_drop]
  omega

/-- `explain_regex` (lines 30-135 of `txt.py`). -/
def explain_regex (p : List Char) : List String :=
  let e := explainGo p
  if e = [] then [emptyPatternDesc] else e

/-! ## Explainer lemmas -/

theorem parseBraceQuant_some {l tok g1 : List Char} {cm : Bool} {g3 : Option (List Char)}
    (h : parseBraceQuant l = some (tok, g1, cm, g3)) :
    1 ≤ tok.length ∧ tok ++ l.drop tok.length = l := by
  unfold parseBraceQuant at h
  split at h
  case h_2 => exact absurd h (by simp)
  case h_1 l' rest =>
    dsimp only at h
    split at h
    · exact absurd h (by simp)
    · split at h
      case h_1 r2 heq1 =>
        split at h
        case h_1 t heq2 =>
          simp only [Option.some.injEq, Prod.mk.injEq] at h
          obtain ⟨htok, -⟩ := h
          subst htok
          have hrest : rest = (rest.takeWhile Char.isDigit) ++
              (',' :: (r2.takeWhile Char.isDigit ++ ('\x7d' :: t))) := by
            conv_lhs => rw [← List.takeWhile_append_dropWhile (p := Char.isDigit) (l := rest)]
            rw [heq1]
            congr 1
            congr 1
            conv_lhs => rw [← List.takeWhile_append_dropWhile (p := Char.isDigit) (l := r2)]
            rw [heq2]
          refine ⟨by simp, ?_⟩
          have hl : '\x7b' :: rest =
              ('\x7b' :: (rest.takeWhile Char.isDigit ++ ',' ::
                (r2.takeWhile Char.isDigit ++ ['\x7d']))) ++ t := by
            conv_lhs => rw [hrest]
            simp
          rw [hl, List.drop_left]
        case h_2 => exact absurd h (by simp)
      case h_2 t heq1 =>
        simp only [Option.some.injEq, Prod.mk.injEq] at h
        obtain ⟨htok, -⟩ := h
        subst htok
        have hrest : rest = (rest.takeWhile Char.isDigit) ++ ('\x7d' :: t) := by
          conv_lhs => rw [← List.takeWhile_append_dropWhile (p := Char.isDigit) (l := rest)]
          rw [heq1]
        refine ⟨by simp, ?_⟩
        have hl : '\x7b' :: rest =
            ('\x7b' :: (rest.takeWhile Char.isDigit ++ ['\x7d'])) ++ t := by
          conv_lhs => rw [hrest]
          simp
        rw [hl, List.drop_left]
      case h_3 => exact absurd h (by simp)

/-- The cursor strictly increases: every loop iteration consumes at least
one character of the pattern. -/
theorem explainStep_one_le (c : Char) (rest : List Char) : 1 ≤ (explainStep c rest).2 := by
  by_cases h1 : c = '\\'
  · simp only [explainStep, if_pos h1]
    cases rest with
    | nil => simp
    | cons c2 t => cases hd : escapeDesc c2 <;> simp [hd]
  · by_cases h8 : c = '\x7b'
    · subst h8
      cases hp : parseBraceQuant ('\x7b' :: rest) with
      | none => simp [explainStep, hp]
      | some q =>
        obtain ⟨tok, g1, cm, g3⟩ := q
        have hlen := (parseBraceQuant_some hp).1
        simp [explainStep, hp]
        omega
    · simp only [explainStep, if_neg h1, if_neg h8]
      by_cases h2 : c = '.'
      · rw [if_pos h2]
      · rw [if_neg h2]
        by_cases h3 : c = '^'
        · rw [if_pos h3]
        · rw [if_neg h3]
          by_cases h4 : c = '$'
          · rw [if_pos h4]
          · rw [if_neg h4]
            by_cases h5 : c = '*'
            · rw [if_pos h5]
            · rw [if_neg h5]
              by_cases h6 : c = '+'
              · rw [if_pos h6]
              · rw [if_neg h6]
                by_cases h7 : c = '?'
                · rw [if_pos h7]
                · rw [if_neg h7]
                  by_cases h9 : c = '('
                  · rw [if_pos h9]
                    by_cases ha : rest.take 2 = ['?', ':']
                    · rw [if_pos ha]; omega
                    · rw [if_neg ha]
                      by_cases hb : rest.take 1 = ['?']
                      · rw [if_pos hb]
                      · rw [if_neg hb]
                  · rw [if_neg h9]
                    by_cases hc : c = ')'
                    · rw [if_pos hc]
                    · rw [if_neg hc]
                      by_cases hd : c = '|'
                      · rw [if_pos hd]
                      · rw [if_neg hd]
                        by_cases he : c = '['
                        · rw [if_pos he]
                          by_cases hf : rest.take 1 = ['^']
                          · rw [if_pos hf]; omega
                          · rw [if_neg hf]
                        · rw [if_neg he]
                          by_cases hg : c = ']'
                          · rw [if_pos hg]
                          · rw [if_neg hg]

/-- A fuel-indexed evaluator for the scan loop, used to compute
`explainGo` on concrete patterns inside the kernel; `explainGoF_eq`
shows any fuel of at least the pattern length gives the loop itself. -/
def explainGoF : Nat → List Char → List String
  | 0, _ => []
  | _ + 1, [] => []
  | fuel + 1, c :: rest =>
    let st := explainStep c rest
    st.1 :: explainGoF fuel (rest.drop (st.2 - 1))

theorem explainGoF_eq (fuel : Nat) : ∀ l : List Char, l.length ≤ fuel →
    explainGoF fuel l = explainGo l := by
  induction fuel with
  | zero =>
    intro l h
    cases l with
    | nil => rw [explainGo]; rfl
    | cons c rest => simp at h
  | succ n ih =>
    intro l h
    cases l with
    | nil => rw [explainGo]; rfl
    | cons c rest =>
      rw [explainGo, explainGoF]
      show (explainStep c rest).1 :: explainGoF n (rest.drop ((explainStep c rest).2 - 1)) =
        (explainStep c rest).1 :: explainGo (rest.drop ((explainStep c rest).2 - 1))
      have h2 : (rest.drop ((explainStep c rest).2 - 1)).length ≤ n := by
        simp only [List.length_cons] at h
        simp only [List.length_drop]
        omega
      rw [ih _ h2]

def explain_regexF (p : List Char) : List String :=
  let e := explainGoF p.length p
  if e = [] then [emptyPatternDesc] else e

theorem explain_regex_eq_F (p : List Char) : explain_regex p = explain_regexF p := by
  rw [explain_regex, explain_regexF, explainGoF_eq p.length p (le_refl _)]

/-! ## Literal-pattern matcher (used for concrete instantiations) -/

/-- Modelled from the spec: the leftmost-match behaviour of a compiled
pattern consisting only of literal characters — the first occurrence of
`pat` in `text` at or after the requested position. -/
def litFind (pat : List Char) : Matcher := fun text pos =>
  (((List.range (text.length + 1)).filter
    (fun i => decide (pos ≤ i) && decide ((text.drop i).take pat.length = pat))).head?).map
    (fun i => (i, i + pat.length))

theorem litFind_valid (pat text : List Char) : FindValid (litFind pat text) := by
  intro p s e h
  simp only [litFind, Option.map_eq_some'] at h
  obtain ⟨i, hi, hfe⟩ := h
  obtain ⟨hs, he⟩ := Prod.mk.injEq .. ▸ hfe
  have him : i ∈ (List.range (text.length + 1)).filter
      (fun i => decide (p ≤ i) && decide ((text.drop i).take pat.length = pat)) :=
    List.mem_of_mem_head? (by rw [hi]; exact rfl)
  have hpe := (List.mem_filter.mp him).2
  simp only [Bool.and_eq_true, decide_eq_true_eq] at hpe
  constructor
  · rw [← hs]; exact hpe.1
  · rw [← hs, ← he]; exact Nat.le_add_right i pat.length

/-- Every escaped segment the highlighter emits went through `htmlEscape`. -/
theorem highlightGo_esc_escaped (text color : List Char) :
    ∀ (spans : List (Nat × Nat)) (p : Nat) (seg : HSeg),
      seg ∈ highlightGo text color p spans → ∀ s, seg = HSeg.esc s →
        ∃ u, s = htmlEscape u := by
  intro spans
  induction spans with
  | nil =>
    intro p seg hmem s hseg
    simp only [highlightGo, List.mem_singleton] at hmem
    subst hmem
    obtain rfl : s = htmlEscape (text.drop p) := by
      cases hseg
      rfl
    exact ⟨text.drop p, rfl⟩
  | cons m rest ih =>
    intro p seg hmem s hseg
    obtain ⟨a, b⟩ := m
    simp only [highlightGo, List.mem_cons] at hmem
    rcases hmem with h | h | h | h | h
    · subst h
      cases hseg
      exact ⟨pySlice text p a, rfl⟩
    · subst h
      cases hseg
    · subst h
      cases hseg
      exact ⟨pySlice text a b, rfl⟩
    · subst h
      cases hseg
    · exact ih b seg h s hseg

/-! ## Claims -/

/-- Claim C1: for every text and every non-overlapping ordered list of
match spans, removing the highlight-wrapper markers from the markup the
live highlighter builds and unescaping the escaped segments reconstructs
the original text exactly; and every escaped segment (text outside and
inside matches alike) is the image of the escaping function. -/
theorem c1_highlight_escape_roundtrip (text color : List Char)
    (spans : List (Nat × Nat)) (h : spansOk 0 spans = true) :
    stripSegs (highlightGo text color 0 spans) = text ∧
    ∀ seg ∈ highlightGo text color 0 spans, ∀ s, seg = HSeg.esc s →
      ∃ u, s = htmlEscape u := by
  refine ⟨?_, fun seg hm s hs => highlightGo_esc_escaped text color spans 0 seg hm s hs⟩
  have hg := stripSegs_highlightGo text color spans 0 h
  simpa using hg

theorem c1_highlight_escape_roundtrip_witness :
    spansOk 0 [(1, 2)] = true ∧
    stripSegs (highlightGo "a<b&c\x22d\x27e".toList "yellow".toList 0 [(1, 2)]) =
      "a<b&c\x22d\x27e".toList :=
  ⟨by decide,
    (c1_highlight_escape_roundtrip "a<b&c\x22d\x27e".toList "yellow".toList
      [(1, 2)] (by decide)).1⟩

/-- Claim C2: the span list the highlighter walks (the non-overlapping
left-to-right `finditer` scan) starts at or after offset 0, is ordered by
ascending start offset, and consecutive spans satisfy
`end i ≤ start (i+1)`, so the cursor walk never moves backwards. -/
theorem c2_highlight_spans_ordered (cp : Matcher) (text : List Char)
    (hv : FindValid (cp text)) :
    spansOk 0 (matcherSpans cp text) = true ∧
    List.Chain' (fun a b => a.2 ≤ b.1) (matcherSpans cp text) ∧
    List.Chain' (fun a b => a.1 ≤ b.1) (matcherSpans cp text) := by
  have h := spansOk_finditerSpans (cp text) hv (text.length + 1) 0
  exact ⟨h, spansOk_chain_end_start 0 h, spansOk_chain_start_start 0 h⟩

theorem c2_highlight_spans_ordered_witness :
    spansOk 0 (matcherSpans (litFind "ab".toList) "aabb".toList) = true :=
  (c2_highlight_spans_ordered (litFind "ab".toList) "aabb".toList
    (litFind_valid "ab".toList "aabb".toList)).1

/-- Claim C3: the explainer is total — the cursor strictly increases on
every loop iteration, the result is never empty, and the empty pattern
yields exactly the single placeholder description. -/
theorem c3_explainer_total :
    (∀ (c : Char) (rest : List Char), 1 ≤ (explainStep c rest).2) ∧
    (∀ p : List Char, 1 ≤ (explain_regex p).length) ∧
    explain_regex [] = [emptyPatternDesc] := by
  have hnil : explainGo [] = ([] : List String) := by rw [explainGo]
  refine ⟨explainStep_one_le, ?_, ?_⟩
  · intro p
    by_cases he : explainGo p = []
    · simp [explain_regex, he]
    · simp only [explain_regex, if_neg he]
      have := List.length_pos.mpr he
      omega
  · simp [explain_regex, hnil]

/-- Claim C4: when the explainer sees a brace-quantifier of shape
`\x7bm\x7d`, `\x7bm,\x7d` or `\x7bm,n\x7d` (digits only) it emits exactly
one quantifier description (exactly / at least / between, per the groups
matched) and advances the cursor past the whole matched substring (the
token is the consumed portion of the remaining pattern); when the shape
does not match, the brace alone is described as a literal character and
the cursor advances by one.  In particular the pattern `a\x7b2,5\x7d`
yields the literal-a description followed by one between-2-and-5
quantifier description. -/
theorem c4_brace_quantifier :
    (∀ (rest tok g1 : List Char) (cm : Bool) (g3 : Option (List Char)),
      parseBraceQuant ('\x7b' :: rest) = some (tok, g1, cm, g3) →
        explainStep '\x7b' rest = (braceQuantDesc tok (braceBody g1 cm g3), tok.length) ∧
        tok ++ ('\x7b' :: rest).drop tok.length = '\x7b' :: rest) ∧
    (∀ rest : List Char, parseBraceQuant ('\x7b' :: rest) = none →
      explainStep '\x7b' rest = (literalCharDesc '\x7b', 1)) ∧
    explain_regex "a\x7b2,5\x7d".toList =
      [literalCharDesc 'a',
       braceQuantDesc "\x7b2,5\x7d".toList (braceBody ['2'] true (some ['5']))] := by
  refine ⟨?_, ?_, ?_⟩
  · intro rest tok g1 cm g3 h
    exact ⟨by simp [explainStep, h], (parseBraceQuant_some h).2⟩
  · intro rest h
    simp [explainStep, h]
  · rw [explain_regex_eq_F]
    decide

theorem c4_brace_quantifier_witness :
    explainStep '\x7b' "2,5\x7d".toList =
      (braceQuantDesc "\x7b2,5\x7d".toList (braceBody ['2'] true (some ['5'])), 5) := by
  have h := (c4_brace_quantifier.1 "2,5\x7d".toList "\x7b2,5\x7d".toList ['2'] true
    (some ['5']) (by decide)).1
  exact h.trans (by decide)

/-- Claim C5 (refuted by the code): on a lookaround prefix the code
appends the lookaround description but advances the cursor by only ONE
character (`i += 1` at line 101 of `txt.py`), not past both characters of
the consumed prefix, so the question mark is re-described as the
zero-or-one quantifier: explaining the pattern `(?=a)` yields the
lookaround description immediately followed by the zero-or-one
description for the same question mark. -/
theorem c5_lookaround_advances_only_one :
    explainStep '(' "?=a)".toList = (lookaroundDesc, 1) ∧
    explain_regex "(?=a)".toList =
      [lookaroundDesc, questionDesc, literalCharDesc '=', literalCharDesc 'a',
       endGroupDesc] := by
  constructor
  · decide
  · rw [explain_regex_eq_F]
    decide

/-- Claim C6 counterexample: on `[` followed by `^` the explainer emits
the negated-set description but advances the cursor by TWO characters
(consuming the negation marker as well), not by one as the claim
states. -/
theorem c6_counterexample :
    explainStep '[' ['^', ']'] = (negCharSetDesc, 2) ∧
    ¬ explainStep '[' ['^', ']'] = (negCharSetDesc, 1) := by
  constructor
  · decide
  · decide

/-- Claim C6 as amended: a bare group-close, alternation bar, or
character-set close each emit their fixed description and advance the
cursor by one; a character-set open emits the plain set description and
advances by one, except that when the next character is the negation
marker it emits the negated-set description and advances by two. -/
theorem c6_fixed_single_tokens (rest : List Char) :
    explainStep ')' rest = (endGroupDesc, 1) ∧
    explainStep '|' rest = (alternationDesc, 1) ∧
    explainStep ']' rest = (endCharSetDesc, 1) ∧
    (rest.take 1 = ['^'] → explainStep '[' rest = (negCharSetDesc, 2)) ∧
    (rest.take 1 ≠ ['^'] → explainStep '[' rest = (charSetDesc, 1)) := by
  refine ⟨by simp [explainStep], by simp [explainStep], by simp [explainStep], ?_, ?_⟩
  · intro h
    simp [explainStep, h]
  · intro h
    simp [explainStep, h]

theorem c6_fixed_single_tokens_witness :
    explainStep '[' ['^', 'a', ']'] = (negCharSetDesc, 2) :=
  (c6_fixed_single_tokens ['^', 'a', ']']).2.2.2.1 (by decide)

/-- Claim C7 counterexample: for the literal pattern `ab` on the text
`aaabbb`, substituting with the empty template yields `aabb` (one match
found and removed); re-running the same substitution yields `ab`, which
is neither the identical text nor a text with strictly fewer matches
than the first run found (both the intermediate and the final text still
contain exactly one match — deleting a match created a new one). -/
theorem c7_counterexample :
    reSub (litFind "ab".toList) [] "aaabbb".toList = "aabb".toList ∧
    reSub (litFind "ab".toList) [] "aabb".toList = "ab".toList ∧
    (matcherSpans (litFind "ab".toList) "aaabbb".toList).length = 1 ∧
    ¬ (reSub (litFind "ab".toList) [] "aabb".toList = "aabb".toList ∨
       (matcherSpans (litFind "ab".toList)
          (reSub (litFind "ab".toList) [] "aabb".toList)).length <
         (matcherSpans (litFind "ab".toList) "aaabbb".toList).length ∨
       (matcherSpans (litFind "ab".toList) "aabb".toList).length <
         (matcherSpans (litFind "ab".toList) "aaabbb".toList).length) := by
  decide

/-- Claim C7 as amended: substituting every non-overlapping match with
the empty template splices out exactly the found match spans; re-running
the same substitution yields the identical text whenever the pattern no
longer matches the result.  The match count of the re-run, however, need
not be strictly smaller than the first run's count, because removing a
match can create a new one. -/
theorem c7_empty_template_removes_matches (cp : Matcher) (template text : List Char)
    (h : matcherSpans cp text = []) :
    reSub cp template text = text := by
  rw [reSub, h]
  rfl

theorem c7_empty_template_removes_matches_witness :
    reSub (litFind "zz".toList) [] "ab".toList = "ab".toList :=
  c7_empty_template_removes_matches (litFind "zz".toList) [] "ab".toList (by decide)

/-- Claim C8 (refuted by the code): the loader does return the empty
list for an absent file, an I/O error, an unparseable-JSON file, and a
parsed value that is not a list — but a present library file whose
bytes are not valid UTF-8 makes `json.load` raise `UnicodeDecodeError`,
which `except (json.JSONDecodeError, IOError)` does not catch, so
loading the library can fail after all. -/
theorem c8_corrupt_non_utf8_file_raises :
    load_patterns_file
        (.unicodeDecodeError "utf-8 codec cannot decode byte 0xff".toList) =
      .error "utf-8 codec cannot decode byte 0xff".toList ∧
    load_patterns_file .absent = .ok [] ∧
    (∀ m : List Char, load_patterns_file (.ioError m) = .ok []) ∧
    (∀ m : List Char, load_patterns_file (.jsonDecodeError m) = .ok []) ∧
    (∀ d : Json, d.isArr = false → load_patterns_file (.parsed d) = .ok []) ∧
    (∀ l : List Json, load_patterns_file (.parsed (.arr l)) = .ok l) := by
  refine ⟨rfl, rfl, fun m => rfl, fun m => rfl, ?_, fun l => rfl⟩
  intro d hd
  cases d <;> first
    | rfl
    | exact absurd hd (by simp [Json.isArr])

/-- Claim C9: replace-in-editor is atomic on pattern error — with a
non-empty editor and a non-empty pattern, if compiling the pattern fails
then both the editor content and the depth-1 undo snapshot are left
exactly as they were, because compilation precedes the snapshot and the
mutation. -/
theorem c9_replace_atomic_on_error (compile : CompileFn) (s : Session)
    (e : List Char) (h1 : s.editor_content ≠ []) (h2 : s.pattern_input ≠ [])
    (h3 : compile s.pattern_input (sessionFlags s) = .error e) :
    (replace_editor_content compile s).editor_content = s.editor_content ∧
    (replace_editor_content compile s).last_editor_content = s.last_editor_content := by
  unfold replace_editor_content
  rw [if_neg h1, if_neg h2, h3]
  exact ⟨rfl, rfl⟩

def demoSession : Session :=
  { pattern_input := ['(']
    case_sensitive_input := false
    multiline_input := false
    dotall_input := false
    editor_content := "hello".toList
    color_input := "yellow".toList
    replace_with_input := []
    highlight_output := []
    match_count := 0
    last_editor_content := none }

/-- A compile oracle that always reports a regex error. -/
def failCompile : CompileFn := fun _ _ =>
  .error "missing ), unterminated subpattern at position 0".toList

theorem c9_replace_atomic_on_error_witness :
    (replace_editor_content failCompile demoSession).editor_content =
      demoSession.editor_content ∧
    (replace_editor_content failCompile demoSession).last_editor_content =
      demoSession.last_editor_content :=
  c9_replace_atomic_on_error failCompile demoSession
    "missing ), unterminated subpattern at position 0".toList
    (by decide) (by decide) rfl

/-- Claim C10: when the pattern string or the editor text is empty,
`live_highlight` sets the match count to 0 and the fixed instructional
placeholder, and does so without consulting the compiled pattern at all
(the result is the same for every compile oracle), so an empty pattern
always reports zero matches. -/
theorem c10_empty_pattern_short_circuit (compile compile' : CompileFn) (s : Session)
    (h : s.pattern_input = [] ∨ s.editor_content = []) :
    live_highlight compile s =
      { s with highlight_output := noPatternHTML, match_count := 0 } ∧
    live_highlight compile s = live_highlight compile' s := by
  constructor
  · rw [live_highlight, if_pos h]
  · rw [live_highlight, if_pos h, live_highlight, if_pos h]

def emptyPatternSession : Session := { demoSession with pattern_input := [] }

theorem c10_empty_pattern_short_circuit_witness :
    live_highlight failCompile emptyPatternSession =
      { emptyPatternSession with highlight_output := noPatternHTML, match_count := 0 } :=
  (c10_empty_pattern_short_circuit failCompile failCompile emptyPatternSession
    (Or.inl rfl)).1
